import Mathlib

/-!
Verification of the LogpushEstimator time-series core.

The embedding covers:

* the SQLite-backed store of package `database` (`src/unnamed/part_002`):
  the `log_sizes` table (`id INTEGER PRIMARY KEY AUTOINCREMENT`,
  `timestamp DATETIME`, `filesize INTEGER`), `InsertLogSize`,
  `QueryByTimeRange` and `GetAll`;
* the analytics functions of `src/src/gui/handlers/api.go`:
  `calculateStats`, `aggregateByHour` and `calculateSizeBreakdown`.

The Go type `time.Time` is modelled as an absolute instant (an integer count of
nanoseconds since the zero time, negative for instants before year 1)
paired with the timezone offset, in minutes, that the value carries and
that `Format` renders.  Values of the Go type `int64` are modelled as `Int`,
with the 64-bit width made explicit where it is load-bearing: the literal
`int64(^uint64(0) >> 1)` upper bound of the last size range is kept as
`9223372036854775807`, and every Go `int64` addition that can overflow —
the running totals `total += log.Filesize` of `calculateStats` and
`data.TotalSize += log.Filesize` of `aggregateByHour` — is reduced by
`wrap64`, the two's-complement wraparound into `[-2^63, 2^63)`.
`float64` quantities (`AverageSize`, `Percentage`) are modelled as exact
rationals computed by the same division the Go code performs.
-/

namespace LogpushEstimator

/-- Go `time.Time`: `abs` is the absolute instant in nanoseconds since the
zero time (January 1, year 1, UTC); `offset` is the timezone offset in
minutes carried by the value, which `Format("2006-01-02T15:04:05Z07:00")`
renders into the string form.  Two `time.Time` values produce the same
formatted string exactly when they agree on both fields. -/
structure Time where
  abs : Int
  offset : Int
deriving DecidableEq

/-- Nanoseconds in `time.Hour`. -/
def nsPerHour : Int := 3600000000000

/-- Go `t.Truncate(time.Hour)`: rounds `t` down to a multiple of an hour
since the zero time (the `time` package computes a remainder in
`[0, d)`, so this is a floor), keeping the location/offset of the value. -/
def Time.truncHour (t : Time) : Time :=
  { abs := t.abs - t.abs % nsPerHour, offset := t.offset }

/-- Go `t.After(u)`: strict comparison of absolute instants. -/
def Time.after (t u : Time) : Bool := u.abs < t.abs

/-- Two's-complement wraparound of Go `int64` arithmetic: the unique value
in `[-2^63, 2^63)` congruent mod `2^64`.  Applied at every Go `int64`
addition that can overflow. -/
def wrap64 (n : Int) : Int :=
  (n + 9223372036854775808) % 18446744073709551616 - 9223372036854775808

/-- Struct `database.LogSize`: one row of the `log_sizes` table. -/
structure LogSize where
  ID : Int
  Timestamp : Time
  Filesize : Int
deriving DecidableEq

/-- The state behind a `database.SQLiteController`: the rows of the
`log_sizes` table in insertion order, plus the `AUTOINCREMENT` counter
(the id the next inserted row will receive; the SQLite `AUTOINCREMENT` column
assigns strictly increasing ids and never reuses one). -/
structure Store where
  rows : List LogSize
  nextId : Int
deriving DecidableEq

/-- A freshly created database (`NewSQLiteController` on a new file):
no rows, `AUTOINCREMENT` starts at 1. -/
def Store.empty : Store := { rows := [], nextId := 1 }

/-- Method `SQLiteController.InsertLogSize`: executes
`INSERT INTO log_sizes (timestamp, filesize) VALUES (?, ?)` with
`time.Now()` and the given filesize.  The Go function performs no
validation of `filesize`; `now` stands for the `time.Now()` call.
Environmental SQLite failures (disk errors etc.) are outside the model;
on the success path the row is appended with the next id. -/
def insertLogSize (c : Store) (filesize : Int) (now : Time) : Store :=
  { rows := c.rows ++ [{ ID := c.nextId, Timestamp := now, Filesize := filesize }],
    nextId := c.nextId + 1 }

/-- Method `SQLiteController.GetAll`: `SELECT id, timestamp, filesize FROM
log_sizes ORDER BY id`. -/
def getAll (c : Store) : List LogSize :=
  c.rows.mergeSort (fun a b => decide (a.ID ≤ b.ID))

/-- The `WHERE timestamp >= start AND timestamp < end_` predicate of
`QueryByTimeRange`; SQLite compares the stored timestamps as instants. -/
def inRange (start end_ : Time) (l : LogSize) : Bool :=
  decide (start.abs ≤ l.Timestamp.abs) && decide (l.Timestamp.abs < end_.abs)

/-- Method `SQLiteController.QueryByTimeRange`: `SELECT id, timestamp, filesize
FROM log_sizes WHERE timestamp >= ? AND timestamp < ? ORDER BY timestamp`. -/
def queryByTimeRange (c : Store) (start end_ : Time) : List LogSize :=
  (c.rows.filter (inRange start end_)).mergeSort
    (fun a b => decide (a.Timestamp.abs ≤ b.Timestamp.abs))

/-- Struct `handlers.LogSizeStats` of `api.go`.  The Go `LastUpdated` field is the
RFC3339 rendering of the `lastUpdated` time; for the empty input the Go
function returns the zero struct, whose `LastUpdated` is the empty string,
modelled as `none`. -/
structure LogSizeStats where
  TotalRecords : Int
  TotalSize : Int
  AverageSize : ℚ
  MinSize : Int
  MaxSize : Int
  LastUpdated : Option Time
deriving DecidableEq

/-- Function `handlers.calculateStats` of `api.go`: a single pass accumulating
total (the `int64` addition `total += log.Filesize` wraps on overflow,
hence `wrap64`), min, max (min and max initialised to `logs[0].Filesize`)
and `lastUpdated` (initialised to the zero `time.Time` and advanced by
`log.Timestamp.After(lastUpdated)`), then `avg = float64(total) /
float64(len(logs))`. -/
def calculateStats (logs : List LogSize) : LogSizeStats :=
  match logs with
  | [] => { TotalRecords := 0, TotalSize := 0, AverageSize := 0,
            MinSize := 0, MaxSize := 0, LastUpdated := none }
  | l0 :: _ =>
    let total := logs.foldl (fun t l => wrap64 (t + l.Filesize)) 0
    let min := logs.foldl (fun m l => if l.Filesize < m then l.Filesize else m) l0.Filesize
    let max := logs.foldl (fun m l => if m < l.Filesize then l.Filesize else m) l0.Filesize
    let lastUpdated :=
      logs.foldl (fun lu l => if l.Timestamp.after lu then l.Timestamp else lu)
        { abs := 0, offset := 0 }
    { TotalRecords := logs.length, TotalSize := total,
      AverageSize := (total : ℚ) / (logs.length : ℚ),
      MinSize := min, MaxSize := max, LastUpdated := some lastUpdated }

/-- Struct `handlers.TimeSeriesPoint` of `api.go`; the `Timestamp` field is the
hour-key string, modelled by the `Time` value it renders. -/
structure TimeSeriesPoint where
  Timestamp : Time
  Count : Nat
  TotalSize : Int
deriving DecidableEq

/-- The map key `log.Timestamp.Truncate(time.Hour).Format("2006-01-02T15:04:05Z07:00")`
used by `aggregateByHour`, modelled by the (instant, offset) pair the
string renders. -/
def hourKey (l : LogSize) : Time := l.Timestamp.truncHour

/-- One step of the map update in `aggregateByHour`
(`data := hourMap[hourKey]; data.Count++; data.TotalSize += log.Filesize;
hourMap[hourKey] = data`), with the Go map modelled as an association
list in first-insertion order.  The `int64` addition `data.TotalSize +=
log.Filesize` wraps on overflow, hence `wrap64` (for a fresh key the Go
zero value gives `0 + size`). -/
def updateHourMap (m : List (Time × Nat × Int)) (k : Time) (size : Int) :
    List (Time × Nat × Int) :=
  match m with
  | [] => [(k, 1, wrap64 (0 + size))]
  | e :: rest =>
    if e.1 = k then (e.1, e.2.1 + 1, wrap64 (e.2.2 + size)) :: rest
    else e :: updateHourMap rest k size

/-- Function `handlers.aggregateByHour` of `api.go`: builds `hourMap` over the logs,
then emits one `TimeSeriesPoint` per map entry.  Go iterates the map in
unspecified order; the model emits entries in first-insertion order, one
of the orders Go can produce (none of the verified properties depends on
the order). -/
def aggregateByHour (logs : List LogSize) : List TimeSeriesPoint :=
  let hourMap := logs.foldl (fun m l => updateHourMap m (hourKey l) l.Filesize) []
  hourMap.map (fun e => { Timestamp := e.1, Count := e.2.1, TotalSize := e.2.2 })

/-- One entry of the `ranges` table in `calculateSizeBreakdown`. -/
structure SizeRange where
  Name : String
  Min : Int
  Max : Int
deriving DecidableEq

/-- The `ranges` literal of `calculateSizeBreakdown`; the last upper bound
is the Go expression `int64` of `^uint64(0) >> 1`, i.e. the maximum `int64`. -/
def sizeRanges : List SizeRange :=
  [{ Name := "< 1KB", Min := 0, Max := 1024 },
   { Name := "1KB - 10KB", Min := 1024, Max := 10 * 1024 },
   { Name := "10KB - 100KB", Min := 10 * 1024, Max := 100 * 1024 },
   { Name := "100KB - 1MB", Min := 100 * 1024, Max := 1024 * 1024 },
   { Name := "1MB - 10MB", Min := 1024 * 1024, Max := 10 * 1024 * 1024 },
   { Name := "> 10MB", Min := 10 * 1024 * 1024, Max := 9223372036854775807 }]

/-- Condition `log.Filesize >= r.Min && log.Filesize < r.Max` of the inner
loop of `calculateSizeBreakdown`. -/
def matchesRange (r : SizeRange) (filesize : Int) : Bool :=
  decide (r.Min ≤ filesize) && decide (filesize < r.Max)

/-- The inner loop of `calculateSizeBreakdown`: scan `ranges` in order and
stop (`break`) at the first range with `filesize >= r.Min && filesize < r.Max`;
`none` when no range matches. -/
def classify (filesize : Int) : Option Nat :=
  sizeRanges.findIdx? (fun r => matchesRange r filesize)

/-- Struct `handlers.SizeBreakdown` of `api.go`. -/
structure SizeBreakdown where
  Range : String
  Count : Nat
  Percentage : ℚ
deriving DecidableEq

/-- Function `handlers.calculateSizeBreakdown` of `api.go`: counts each log into the
first matching range (`rangeCounts`), then emits one bucket per range with
`percentage = float64(count) / float64(total) * 100` when `total > 0` and
`0.0` otherwise. -/
def calculateSizeBreakdown (logs : List LogSize) : List SizeBreakdown :=
  let total := logs.length
  (List.range sizeRanges.length).map (fun i =>
    let cnt := logs.countP (fun l => decide (classify l.Filesize = some i))
    { Range := ((sizeRanges.getD i { Name := "", Min := 0, Max := 0 })).Name,
      Count := cnt,
      Percentage := if 0 < total then (cnt : ℚ) / (total : ℚ) * 100 else 0 })

/-- Applying a sequence of `InsertLogSize` calls (each pair is the
`filesize` argument and the `time.Now()` instant of that call) one at a
time, left to right. -/
def insertAll (c : Store) (ops : List (Int × Time)) : Store :=
  ops.foldl (fun s p => insertLogSize s p.1 p.2) c

/-- The rows a run of `insertAll` appends when the `AUTOINCREMENT` counter
stands at `startId`: one row per call, ids consecutive from `startId`. -/
def expectedRows (startId : Int) : List (Int × Time) → List LogSize
  | [] => []
  | p :: rest =>
    { ID := startId, Timestamp := p.2, Filesize := p.1 } :: expectedRows (startId + 1) rest

/-- Timestamps one hour apart and a three-row store used by concrete
witness instances (the half-openness example of the spec: rows at
`t - 1h`, `t`, `t + 1h`). -/
def demoT1 : Time := { abs := 7200000000000, offset := 0 }

/-- The end of the witness query window, one hour after `demoT1`. -/
def demoT2 : Time := { abs := 10800000000000, offset := 0 }

/-- A concrete store with rows at `demoT1 - 1h`, `demoT1` and `demoT1 + 1h`. -/
def demoStore : Store :=
  { rows :=
      [{ ID := 1, Timestamp := { abs := 3600000000000, offset := 0 }, Filesize := 100 },
       { ID := 2, Timestamp := demoT1, Filesize := 200 },
       { ID := 3, Timestamp := demoT2, Filesize := 300 }],
    nextId := 4 }

/-- Concrete observations with sizes 1000, 2000, 3000 (the summary example
of the spec), used by witness instances. -/
def demoStats : List LogSize :=
  [{ ID := 1, Timestamp := { abs := 5, offset := 0 }, Filesize := 1000 },
   { ID := 2, Timestamp := { abs := 10, offset := 0 }, Filesize := 2000 },
   { ID := 3, Timestamp := { abs := 15, offset := 0 }, Filesize := 3000 }]

/-- Concrete observations, one per size range of the distribution table
(the spec distribution example), used by witness instances. -/
def demoBreakdown : List LogSize :=
  [{ ID := 1, Timestamp := { abs := 0, offset := 0 }, Filesize := 512 },
   { ID := 2, Timestamp := { abs := 0, offset := 0 }, Filesize := 5 * 1024 },
   { ID := 3, Timestamp := { abs := 0, offset := 0 }, Filesize := 50 * 1024 },
   { ID := 4, Timestamp := { abs := 0, offset := 0 }, Filesize := 500 * 1024 },
   { ID := 5, Timestamp := { abs := 0, offset := 0 }, Filesize := 5 * 1024 * 1024 },
   { ID := 6, Timestamp := { abs := 0, offset := 0 }, Filesize := 50 * 1024 * 1024 }]

/-- A single stored observation with a negative size, used by witness
instances. -/
def demoNeg : List LogSize :=
  [{ ID := 1, Timestamp := { abs := 0, offset := 0 }, Filesize := -5 }]

/-- Concrete observations for the hour-merge example of the spec: two in
one clock hour, one in the next. -/
def demoHours : List LogSize :=
  [{ ID := 1, Timestamp := { abs := 0, offset := 0 }, Filesize := 1500 },
   { ID := 2, Timestamp := { abs := 1800000000000, offset := 0 }, Filesize := 1500 },
   { ID := 3, Timestamp := { abs := 3600000000000, offset := 0 }, Filesize := 2500 }]

/-- Two observations of size `2^62` in the same hour: their exact sum
`2^63` overflows `int64` and wraps to `-2^63`. -/
def demoOverflow : List LogSize :=
  [{ ID := 1, Timestamp := { abs := 0, offset := 0 }, Filesize := 4611686018427387904 },
   { ID := 2, Timestamp := { abs := 0, offset := 0 }, Filesize := 4611686018427387904 }]

/-- Lookup of a key in the association-list model of the Go hour map,
`none` when the key is absent; the Go zero-value read of
`hourMap[hourKey]` is modelled inside `updateHourMap`. -/
def lookupHour (m : List (Time × Nat × Int)) (k : Time) : Option (Nat × Int) :=
  match m with
  | [] => none
  | e :: rest => if e.1 = k then some e.2 else lookupHour rest k

/-! ### Store lemmas -/

theorem insertAll_rows (ops : List (Int × Time)) (c : Store) :
    (insertAll c ops).rows = c.rows ++ expectedRows c.nextId ops ∧
    (insertAll c ops).nextId = c.nextId + ops.length := by
  induction ops generalizing c with
  | nil => simp [insertAll, expectedRows]
  | cons p rest ih =>
    have h := ih (insertLogSize c p.1 p.2)
    simp only [insertAll, List.foldl_cons] at h ⊢
    refine ⟨?_, ?_⟩
    · rw [h.1]
      simp [insertLogSize, expectedRows]
    · rw [h.2]
      simp only [insertLogSize, List.length_cons]
      push_cast
      ring

theorem expectedRows_ids (ops : List (Int × Time)) (startId : Int) :
    (expectedRows startId ops).map (fun l => l.ID) =
      (List.range ops.length).map (fun (i : ℕ) => startId + (i : Int)) := by
  induction ops generalizing startId with
  | nil => simp [expectedRows]
  | cons p rest ih =>
    simp only [expectedRows, List.map_cons, List.length_cons, List.range_succ_eq_map,
      List.map_map, ih, List.cons.injEq]
    refine ⟨by simp, ?_⟩
    apply List.map_congr_left
    intro a _
    simp only [Function.comp, Nat.succ_eq_add_one]
    push_cast
    ring

theorem expectedRows_payload (ops : List (Int × Time)) (startId : Int) :
    (expectedRows startId ops).map (fun l => (l.Filesize, l.Timestamp)) = ops := by
  induction ops generalizing startId with
  | nil => rfl
  | cons p rest ih => simp [expectedRows, ih]

theorem expectedRows_id_lt (ops : List (Int × Time)) (startId : Int) :
    (expectedRows startId ops).Pairwise (fun a b => a.ID < b.ID) := by
  have h : ((List.range ops.length).map (fun (i : ℕ) => startId + (i : Int))).Pairwise
      (fun a b => a < b) := by
    refine List.pairwise_map.mpr ?_
    refine (List.pairwise_lt_range ops.length).imp ?_
    intro a b hab
    omega
  rw [← expectedRows_ids ops startId] at h
  exact List.pairwise_map.mp h

theorem getAll_of_pairwise (c : Store) (h : c.rows.Pairwise (fun a b => a.ID < b.ID)) :
    getAll c = c.rows := by
  apply List.mergeSort_of_sorted
  exact h.imp (fun hab => decide_eq_true (le_of_lt hab))

/-- C5: starting from a fresh store, a sequence of `InsertLogSize` calls issued
one at a time yields strictly increasing ids (consecutive from 1), and
`GetAll` (`ORDER BY id`) returns exactly the stored rows in insertion order:
row `i` carries the `i`-th inserted payload. -/
theorem insert_getAll_spec (ops : List (Int × Time)) :
    getAll (insertAll Store.empty ops) = (insertAll Store.empty ops).rows ∧
    (getAll (insertAll Store.empty ops)).map (fun l => (l.Filesize, l.Timestamp)) = ops ∧
    (getAll (insertAll Store.empty ops)).map (fun l => l.ID) =
      (List.range ops.length).map (fun (i : ℕ) => 1 + (i : Int)) ∧
    (getAll (insertAll Store.empty ops)).Pairwise (fun a b => a.ID < b.ID) := by
  have hrows : (insertAll Store.empty ops).rows = expectedRows 1 ops := by
    have h := (insertAll_rows ops Store.empty).1
    simpa [Store.empty] using h
  have hpw : (insertAll Store.empty ops).rows.Pairwise (fun a b => a.ID < b.ID) := by
    rw [hrows]; exact expectedRows_id_lt ops 1
  have hget : getAll (insertAll Store.empty ops) = expectedRows 1 ops := by
    rw [getAll_of_pairwise _ hpw, hrows]
  refine ⟨by rw [hget, hrows], ?_, ?_, ?_⟩
  · rw [hget, expectedRows_payload]
  · rw [hget, expectedRows_ids]
  · rw [hget]; exact expectedRows_id_lt ops 1

/-! ### Range query -/

/-- C1: `QueryByTimeRange start end_` returns exactly the stored observations
with `start <= timestamp < end_` (as a permutation of the filtered rows and
as a membership characterisation), in ascending timestamp order, and an
empty range (`start >= end_`) yields the empty sequence, not an error. -/
theorem queryByTimeRange_spec (c : Store) (start end_ : Time) :
    (queryByTimeRange c start end_).Perm (c.rows.filter (inRange start end_)) ∧
    (queryByTimeRange c start end_).Pairwise
      (fun a b => a.Timestamp.abs ≤ b.Timestamp.abs) ∧
    (∀ l, l ∈ queryByTimeRange c start end_ ↔
      l ∈ c.rows ∧ start.abs ≤ l.Timestamp.abs ∧ l.Timestamp.abs < end_.abs) ∧
    (end_.abs ≤ start.abs → queryByTimeRange c start end_ = []) := by
  have hperm : (queryByTimeRange c start end_).Perm (c.rows.filter (inRange start end_)) :=
    List.mergeSort_perm _ _
  refine ⟨hperm, ?_, ?_, ?_⟩
  · have h := @List.sorted_mergeSort LogSize
      (fun a b => decide (a.Timestamp.abs ≤ b.Timestamp.abs))
      (fun a b d hab hbd => by
        simp only [decide_eq_true_eq] at hab hbd ⊢
        omega)
      (fun a b => by
        simp only [Bool.or_eq_true, decide_eq_true_eq]
        omega)
      (c.rows.filter (inRange start end_))
    exact h.imp (fun hab => by simpa using hab)
  · intro l
    rw [hperm.mem_iff, List.mem_filter]
    simp [inRange]
  · intro h
    have hnil : c.rows.filter (inRange start end_) = [] := by
      refine List.filter_eq_nil_iff.mpr ?_
      intro l _
      simp only [inRange, Bool.and_eq_true, decide_eq_true_eq]
      omega
    rw [queryByTimeRange, hnil]
    exact List.mergeSort_nil

/-- Witness for C1, at the half-openness example of the spec: three rows one
hour apart, queried over the middle hour. -/
theorem queryByTimeRange_spec_witness :
    (queryByTimeRange demoStore demoT1 demoT2).Perm
      (demoStore.rows.filter (inRange demoT1 demoT2)) ∧
    (queryByTimeRange demoStore demoT1 demoT2).Pairwise
      (fun a b => a.Timestamp.abs ≤ b.Timestamp.abs) ∧
    (∀ l, l ∈ queryByTimeRange demoStore demoT1 demoT2 ↔
      l ∈ demoStore.rows ∧ demoT1.abs ≤ l.Timestamp.abs ∧
        l.Timestamp.abs < demoT2.abs) ∧
    (demoT2.abs ≤ demoT1.abs → queryByTimeRange demoStore demoT1 demoT2 = []) :=
  queryByTimeRange_spec demoStore demoT1 demoT2

/-! ### Insert validation -/

/-- C8 counterexample: `InsertLogSize` does not reject a negative size.
Inserting `-5` into a fresh store persists the observation (the rows are
nonempty afterwards); there is no validation at the storage boundary. -/
theorem insertLogSize_negative_cex :
    (insertLogSize Store.empty (-5) { abs := 0, offset := 0 }).rows =
      [{ ID := 1, Timestamp := { abs := 0, offset := 0 }, Filesize := -5 }] ∧
    (insertLogSize Store.empty (-5) { abs := 0, offset := 0 }).rows ≠ [] := by
  exact ⟨rfl, by decide⟩

/-- C8 as amended: `InsertLogSize` performs no validation; every
`size_bytes` value, negative ones included, is persisted unchanged as a new
observation, so enforcement of the non-negative-size invariant is left to
the callers. -/
theorem insertLogSize_negative_spec (c : Store) (sz : Int) (t : Time) (_h : sz < 0) :
    (insertLogSize c sz t).rows =
      c.rows ++ [{ ID := c.nextId, Timestamp := t, Filesize := sz }] := rfl

/-- Witness for C8 (amended): the negative insert at `-5`. -/
theorem insertLogSize_negative_spec_witness :
    (-5 : Int) < 0 ∧
    (insertLogSize Store.empty (-5) { abs := 0, offset := 0 }).rows =
      Store.empty.rows ++
        [{ ID := Store.empty.nextId, Timestamp := { abs := 0, offset := 0 },
           Filesize := -5 }] :=
  ⟨by decide, insertLogSize_negative_spec Store.empty (-5) { abs := 0, offset := 0 } (by decide)⟩

/-! ### Summary statistics -/

theorem wrap64_add_left (a b : Int) : wrap64 (wrap64 a + b) = wrap64 (a + b) := by
  unfold wrap64
  omega

theorem wrap64_eq_self {a : Int} (h1 : -9223372036854775808 ≤ a)
    (h2 : a < 9223372036854775808) : wrap64 a = a := by
  unfold wrap64
  omega

theorem wrap64_zero : wrap64 0 = 0 := by
  unfold wrap64
  omega

theorem foldl_wrap_filesize (logs : List LogSize) (a : Int) :
    logs.foldl (fun t l => wrap64 (t + l.Filesize)) (wrap64 a) =
      wrap64 (a + (logs.map (fun l => l.Filesize)).sum) := by
  induction logs generalizing a with
  | nil => simp
  | cons x rest ih =>
    simp only [List.foldl_cons, List.map_cons, List.sum_cons]
    rw [wrap64_add_left, ih, add_assoc]

theorem foldl_wrap_filesize_zero (logs : List LogSize) :
    logs.foldl (fun t l => wrap64 (t + l.Filesize)) 0 =
      wrap64 ((logs.map (fun l => l.Filesize)).sum) := by
  have h := foldl_wrap_filesize logs 0
  rw [wrap64_zero, zero_add] at h
  exact h

theorem foldl_wrap_add (xs : List Int) (a : Int) :
    xs.foldl (fun t x => wrap64 (t + x)) (wrap64 a) = wrap64 (a + xs.sum) := by
  induction xs generalizing a with
  | nil => simp
  | cons x rest ih =>
    simp only [List.foldl_cons, List.sum_cons]
    rw [wrap64_add_left, ih, add_assoc]

theorem foldl_wrap_add_zero (xs : List Int) :
    xs.foldl (fun t x => wrap64 (t + x)) 0 = wrap64 xs.sum := by
  have h := foldl_wrap_add xs 0
  rw [wrap64_zero, zero_add] at h
  exact h

theorem foldl_min_spec (logs : List LogSize) (a : Int) :
    (logs.foldl (fun m l => if l.Filesize < m then l.Filesize else m) a = a ∨
      logs.foldl (fun m l => if l.Filesize < m then l.Filesize else m) a
        ∈ logs.map (fun l => l.Filesize)) ∧
    logs.foldl (fun m l => if l.Filesize < m then l.Filesize else m) a ≤ a ∧
    ∀ l ∈ logs,
      logs.foldl (fun m l => if l.Filesize < m then l.Filesize else m) a ≤ l.Filesize := by
  induction logs generalizing a with
  | nil => simp
  | cons x rest ih =>
    by_cases hx : x.Filesize < a
    · obtain ⟨hmem, hle, hall⟩ := ih x.Filesize
      simp only [List.foldl_cons, if_pos hx, List.map_cons, List.mem_cons]
      refine ⟨?_, by omega, ?_⟩
      · rcases hmem with h | h
        · exact Or.inr (Or.inl h)
        · exact Or.inr (Or.inr h)
      · intro l hl
        rcases hl with rfl | hl
        · exact hle
        · exact hall l hl
    · obtain ⟨hmem, hle, hall⟩ := ih a
      simp only [List.foldl_cons, if_neg hx, List.map_cons, List.mem_cons]
      refine ⟨?_, hle, ?_⟩
      · rcases hmem with h | h
        · exact Or.inl h
        · exact Or.inr (Or.inr h)
      · intro l hl
        rcases hl with rfl | hl
        · omega
        · exact hall l hl

theorem foldl_max_spec (logs : List LogSize) (a : Int) :
    (logs.foldl (fun m l => if m < l.Filesize then l.Filesize else m) a = a ∨
      logs.foldl (fun m l => if m < l.Filesize then l.Filesize else m) a
        ∈ logs.map (fun l => l.Filesize)) ∧
    a ≤ logs.foldl (fun m l => if m < l.Filesize then l.Filesize else m) a ∧
    ∀ l ∈ logs,
      l.Filesize ≤ logs.foldl (fun m l => if m < l.Filesize then l.Filesize else m) a := by
  induction logs generalizing a with
  | nil => simp
  | cons x rest ih =>
    by_cases hx : a < x.Filesize
    · obtain ⟨hmem, hle, hall⟩ := ih x.Filesize
      simp only [List.foldl_cons, if_pos hx, List.map_cons, List.mem_cons]
      refine ⟨?_, by omega, ?_⟩
      · rcases hmem with h | h
        · exact Or.inr (Or.inl h)
        · exact Or.inr (Or.inr h)
      · intro l hl
        rcases hl with rfl | hl
        · exact hle
        · exact hall l hl
    · obtain ⟨hmem, hle, hall⟩ := ih a
      simp only [List.foldl_cons, if_neg hx, List.map_cons, List.mem_cons]
      refine ⟨?_, hle, ?_⟩
      · rcases hmem with h | h
        · exact Or.inl h
        · exact Or.inr (Or.inr h)
      · intro l hl
        rcases hl with rfl | hl
        · omega
        · exact hall l hl

theorem foldl_last_spec (logs : List LogSize) (a : Time) :
    (logs.foldl (fun lu l => if l.Timestamp.after lu then l.Timestamp else lu) a = a ∨
      logs.foldl (fun lu l => if l.Timestamp.after lu then l.Timestamp else lu) a
        ∈ logs.map (fun l => l.Timestamp)) ∧
    a.abs ≤ (logs.foldl (fun lu l => if l.Timestamp.after lu then l.Timestamp else lu) a).abs ∧
    ∀ l ∈ logs,
      l.Timestamp.abs ≤
        (logs.foldl (fun lu l => if l.Timestamp.after lu then l.Timestamp else lu) a).abs := by
  induction logs generalizing a with
  | nil => simp
  | cons x rest ih =>
    by_cases hx : a.abs < x.Timestamp.abs
    · obtain ⟨hmem, hle, hall⟩ := ih x.Timestamp
      simp only [Time.after, decide_eq_true_eq] at hmem hle hall
      simp only [List.foldl_cons, Time.after, decide_eq_true_eq, if_pos hx,
        List.map_cons, List.mem_cons]
      refine ⟨?_, by omega, ?_⟩
      · rcases hmem with h | h
        · exact Or.inr (Or.inl h)
        · exact Or.inr (Or.inr h)
      · intro l hl
        rcases hl with rfl | hl
        · exact hle
        · exact hall l hl
    · obtain ⟨hmem, hle, hall⟩ := ih a
      simp only [Time.after, decide_eq_true_eq] at hmem hle hall
      simp only [List.foldl_cons, Time.after, decide_eq_true_eq, if_neg hx,
        List.map_cons, List.mem_cons]
      refine ⟨?_, hle, ?_⟩
      · rcases hmem with h | h
        · exact Or.inl h
        · exact Or.inr (Or.inr h)
      · intro l hl
        rcases hl with rfl | hl
        · omega
        · exact hall l hl

/-- C2 (amended): for a non-empty input with at least one timestamp not
before the zero time, `calculateStats` returns the count, the sum of
sizes reduced into `int64` by two's-complement wraparound (`total +=
log.Filesize` is an `int64` addition; the total equals the exact sum
whenever that sum fits in `int64`), the average `total_bytes / count`
of the returned total (modelled as exact rational division), the minimum
and maximum size, and a `LastUpdated` time whose instant is the maximum
input timestamp.  The zero-time hypothesis is needed because the Go
accumulator is initialised to the zero `time.Time`; without it the
reported instant can be the zero time instead of the input maximum. -/
theorem calculateStats_spec (logs : List LogSize) (h : logs ≠ [])
    (hts : ∃ l ∈ logs, 0 ≤ l.Timestamp.abs) :
    (calculateStats logs).TotalRecords = (logs.length : Int) ∧
    (calculateStats logs).TotalSize = wrap64 ((logs.map (fun l => l.Filesize)).sum) ∧
    (-9223372036854775808 ≤ (logs.map (fun l => l.Filesize)).sum →
      (logs.map (fun l => l.Filesize)).sum < 9223372036854775808 →
      (calculateStats logs).TotalSize = (logs.map (fun l => l.Filesize)).sum) ∧
    (calculateStats logs).AverageSize =
      (((calculateStats logs).TotalSize : Int) : ℚ) / (logs.length : ℚ) ∧
    ((calculateStats logs).MinSize ∈ logs.map (fun l => l.Filesize) ∧
      ∀ l ∈ logs, (calculateStats logs).MinSize ≤ l.Filesize) ∧
    ((calculateStats logs).MaxSize ∈ logs.map (fun l => l.Filesize) ∧
      ∀ l ∈ logs, l.Filesize ≤ (calculateStats logs).MaxSize) ∧
    ∃ t, (calculateStats logs).LastUpdated = some t ∧
      (∃ l ∈ logs, l.Timestamp.abs = t.abs) ∧
      ∀ l ∈ logs, l.Timestamp.abs ≤ t.abs := by
  match logs with
  | [] => exact absurd rfl h
  | l0 :: rest =>
    simp only [calculateStats]
    obtain ⟨hminmem, -, hminall⟩ := foldl_min_spec (l0 :: rest) l0.Filesize
    obtain ⟨hmaxmem, -, hmaxall⟩ := foldl_max_spec (l0 :: rest) l0.Filesize
    obtain ⟨hlumem, hlule, hluall⟩ :=
      foldl_last_spec (l0 :: rest) { abs := 0, offset := 0 }
    refine ⟨trivial, ?_, ?_, ?_, ⟨?_, hminall⟩, ⟨?_, hmaxall⟩, ?_⟩
    · exact foldl_wrap_filesize_zero (l0 :: rest)
    · intro hlo hhi
      rw [foldl_wrap_filesize_zero]
      exact wrap64_eq_self hlo hhi
    · trivial
    · rcases hminmem with heq | hmem
      · rw [heq]
        exact List.mem_map_of_mem _ (List.mem_cons_self _ _)
      · exact hmem
    · rcases hmaxmem with heq | hmem
      · rw [heq]
        exact List.mem_map_of_mem _ (List.mem_cons_self _ _)
      · exact hmem
    · refine ⟨_, rfl, ?_, hluall⟩
      rcases hlumem with heq | hmem
      · obtain ⟨l, hl, hl0⟩ := hts
        refine ⟨l, hl, ?_⟩
        have hle2 : l.Timestamp.abs ≤ 0 := by
          have h3 := hluall l hl
          rw [heq] at h3
          exact h3
        rw [heq]
        show l.Timestamp.abs = (0 : Int)
        omega
      · obtain ⟨l, hl, hleq⟩ := List.mem_map.mp hmem
        exact ⟨l, hl, by rw [hleq]⟩

/-- C2 counterexample, refuting the claim as stated at two concrete
inputs: on the single observation whose timestamp is one nanosecond
before the zero time, `calculateStats` reports the zero time as the most
recent timestamp (the accumulator starts at the zero `time.Time` and only
strictly later timestamps replace it), not the maximum input timestamp
`abs = -1`; and on two observations of size `2^62` the `int64`
accumulation `total += log.Filesize` wraps, so the returned total is
`-2^63`, not the exact sum `2^63`. -/
theorem calculateStats_cex :
    ((calculateStats
        [{ ID := 1, Timestamp := { abs := -1, offset := 0 }, Filesize := 5 }]).LastUpdated =
      some { abs := 0, offset := 0 } ∧
    ({ abs := 0, offset := 0 } : Time) ≠ { abs := -1, offset := 0 }) ∧
    ((calculateStats demoOverflow).TotalSize = -9223372036854775808 ∧
      (demoOverflow.map (fun l => l.Filesize)).sum = 9223372036854775808 ∧
      (-9223372036854775808 : Int) ≠ 9223372036854775808) := by
  exact ⟨⟨rfl, by decide⟩, by decide, by decide, by decide⟩

/-- Witness for C2 (amended) at the summary example of the spec:
sizes 1000, 2000, 3000. -/
theorem calculateStats_spec_witness :
    (demoStats ≠ [] ∧ ∃ l ∈ demoStats, 0 ≤ l.Timestamp.abs) ∧
    ((calculateStats demoStats).TotalRecords = (demoStats.length : Int) ∧
      (calculateStats demoStats).TotalSize =
        wrap64 ((demoStats.map (fun l => l.Filesize)).sum) ∧
      (-9223372036854775808 ≤ (demoStats.map (fun l => l.Filesize)).sum →
        (demoStats.map (fun l => l.Filesize)).sum < 9223372036854775808 →
        (calculateStats demoStats).TotalSize = (demoStats.map (fun l => l.Filesize)).sum) ∧
      (calculateStats demoStats).AverageSize =
        (((calculateStats demoStats).TotalSize : Int) : ℚ) / (demoStats.length : ℚ) ∧
      ((calculateStats demoStats).MinSize ∈ demoStats.map (fun l => l.Filesize) ∧
        ∀ l ∈ demoStats, (calculateStats demoStats).MinSize ≤ l.Filesize) ∧
      ((calculateStats demoStats).MaxSize ∈ demoStats.map (fun l => l.Filesize) ∧
        ∀ l ∈ demoStats, l.Filesize ≤ (calculateStats demoStats).MaxSize) ∧
      ∃ t, (calculateStats demoStats).LastUpdated = some t ∧
        (∃ l ∈ demoStats, l.Timestamp.abs = t.abs) ∧
        ∀ l ∈ demoStats, l.Timestamp.abs ≤ t.abs) :=
  ⟨⟨by decide, by decide⟩, calculateStats_spec demoStats (by decide) (by decide)⟩

/-! ### Size breakdown -/

/-- C7: on the empty input, `calculateStats` returns the zero-value summary
(count 0, all numeric fields 0, no timestamp), `aggregateByHour` returns no
buckets, and `calculateSizeBreakdown` returns the six ranges with zero
counts and zero percentages.  All analytics functions of the embedding are
total Lean functions, matching the Go functions, which have no error
return at all: no well-typed input produces a failure. -/
theorem analytics_empty_spec :
    calculateStats [] =
      { TotalRecords := 0, TotalSize := 0, AverageSize := 0,
        MinSize := 0, MaxSize := 0, LastUpdated := none } ∧
    aggregateByHour [] = [] ∧
    calculateSizeBreakdown [] =
      sizeRanges.map (fun r => { Range := r.Name, Count := 0, Percentage := 0 }) := by
  refine ⟨rfl, rfl, by decide⟩

/-- C6: `calculateSizeBreakdown` always emits all six range buckets, in the
fixed order of the ranges table, each with
`percentage = 100 * count / total_count`, and with percentage `0` for
every bucket when the input is empty (no division by zero occurs). -/
theorem calculateSizeBreakdown_percentages_spec (logs : List LogSize) :
    (calculateSizeBreakdown logs).length = 6 ∧
    (calculateSizeBreakdown logs).map (fun b => b.Range) =
      sizeRanges.map (fun r => r.Name) ∧
    ∀ b ∈ calculateSizeBreakdown logs,
      (logs.length = 0 → b.Percentage = 0) ∧
      (0 < logs.length → b.Percentage = 100 * (b.Count : ℚ) / (logs.length : ℚ)) := by
  refine ⟨rfl, rfl, ?_⟩
  intro b hb
  simp only [calculateSizeBreakdown, List.mem_map, List.mem_range] at hb
  obtain ⟨i, hi, rfl⟩ := hb
  constructor
  · intro h0
    simp [h0]
  · intro hpos
    simp only [if_pos hpos]
    ring

/-- Witness for C6 at the concrete three-element input `demoStats`. -/
theorem calculateSizeBreakdown_percentages_spec_witness :
    (calculateSizeBreakdown demoStats).length = 6 ∧
    (calculateSizeBreakdown demoStats).map (fun b => b.Range) =
      sizeRanges.map (fun r => r.Name) ∧
    ∀ b ∈ calculateSizeBreakdown demoStats,
      (demoStats.length = 0 → b.Percentage = 0) ∧
      (0 < demoStats.length → b.Percentage = 100 * (b.Count : ℚ) / (demoStats.length : ℚ)) :=
  calculateSizeBreakdown_percentages_spec demoStats

set_option maxHeartbeats 2000000 in
theorem classify_eq (sz : Int) :
    classify sz =
      if sz < 0 then none
      else if sz < 1024 then some 0
      else if sz < 10240 then some 1
      else if sz < 102400 then some 2
      else if sz < 1048576 then some 3
      else if sz < 10485760 then some 4
      else if sz < 9223372036854775807 then some 5
      else none := by
  simp only [classify, sizeRanges, matchesRange, List.findIdx?_cons, List.findIdx?_nil,
    Bool.and_eq_true, decide_eq_true_eq]
  norm_num
  split_ifs <;> first | rfl | omega

theorem classify_lt_six {sz : Int} {i : Nat} (h : classify sz = some i) : i < 6 := by
  rw [classify_eq] at h
  split_ifs at h <;> simp_all <;> omega

theorem classify_neg {sz : Int} (h : sz < 0) : classify sz = none := by
  rw [classify_eq, if_pos h]

theorem classify_isSome {sz : Int} (h0 : 0 ≤ sz) (h1 : sz < 9223372036854775807) :
    (classify sz).isSome = true := by
  rw [classify_eq]
  split_ifs <;> first | rfl | omega

theorem breakdown_counts (logs : List LogSize) :
    (calculateSizeBreakdown logs).map (fun b => b.Count) =
      [logs.countP (fun l => decide (classify l.Filesize = some 0)),
       logs.countP (fun l => decide (classify l.Filesize = some 1)),
       logs.countP (fun l => decide (classify l.Filesize = some 2)),
       logs.countP (fun l => decide (classify l.Filesize = some 3)),
       logs.countP (fun l => decide (classify l.Filesize = some 4)),
       logs.countP (fun l => decide (classify l.Filesize = some 5))] := rfl

theorem sum_counts_eq (logs : List LogSize) :
    ((calculateSizeBreakdown logs).map (fun b => b.Count)).sum =
      logs.countP (fun l => (classify l.Filesize).isSome) := by
  rw [breakdown_counts]
  simp only [List.sum_cons, List.sum_nil]
  induction logs with
  | nil => rfl
  | cons x rest ih =>
    simp only [List.countP_cons]
    rcases hc : classify x.Filesize with _ | i
    · simp [hc]
      omega
    · have hi : i < 6 := classify_lt_six hc
      interval_cases i <;> simp [hc] <;> omega

theorem classify_first_match (sz : Int) (h0 : 0 ≤ sz) (h1 : sz < 9223372036854775807) :
    ∃ i, i < 6 ∧ classify sz = some i ∧
      matchesRange (sizeRanges.getD i { Name := "", Min := 0, Max := 0 }) sz = true ∧
      ∀ j, j < i →
        matchesRange (sizeRanges.getD j { Name := "", Min := 0, Max := 0 }) sz = false := by
  by_cases c1 : sz < 1024
  · refine ⟨0, by omega, ?_, ?_, ?_⟩
    · rw [classify_eq, if_neg (by omega), if_pos c1]
    · simp only [List.getD_cons_zero, matchesRange, sizeRanges, Bool.and_eq_true,
        decide_eq_true_eq]
      omega
    · intro j hj
      exact absurd hj (Nat.not_lt_zero j)
  by_cases c2 : sz < 10240
  · refine ⟨1, by omega, ?_, ?_, ?_⟩
    · rw [classify_eq, if_neg (by omega), if_neg c1, if_pos c2]
    · simp only [sizeRanges, List.getD_cons_succ, List.getD_cons_zero, matchesRange,
        Bool.and_eq_true, decide_eq_true_eq]
      omega
    · intro j hj
      interval_cases j
      simp only [sizeRanges, List.getD_cons_zero, matchesRange]
      simp
      omega
  by_cases c3 : sz < 102400
  · refine ⟨2, by omega, ?_, ?_, ?_⟩
    · rw [classify_eq, if_neg (by omega), if_neg c1, if_neg c2, if_pos c3]
    · simp only [sizeRanges, List.getD_cons_succ, List.getD_cons_zero, matchesRange,
        Bool.and_eq_true, decide_eq_true_eq]
      omega
    · intro j hj
      interval_cases j <;>
        · simp only [sizeRanges, List.getD_cons_succ, List.getD_cons_zero, matchesRange]
          simp
          omega
  by_cases c4 : sz < 1048576
  · refine ⟨3, by omega, ?_, ?_, ?_⟩
    · rw [classify_eq, if_neg (by omega), if_neg c1, if_neg c2, if_neg c3, if_pos c4]
    · simp only [sizeRanges, List.getD_cons_succ, List.getD_cons_zero, matchesRange,
        Bool.and_eq_true, decide_eq_true_eq]
      omega
    · intro j hj
      interval_cases j <;>
        · simp only [sizeRanges, List.getD_cons_succ, List.getD_cons_zero, matchesRange]
          simp
          omega
  by_cases c5 : sz < 10485760
  · refine ⟨4, by omega, ?_, ?_, ?_⟩
    · rw [classify_eq, if_neg (by omega), if_neg c1, if_neg c2, if_neg c3, if_neg c4,
        if_pos c5]
    · simp only [sizeRanges, List.getD_cons_succ, List.getD_cons_zero, matchesRange,
        Bool.and_eq_true, decide_eq_true_eq]
      omega
    · intro j hj
      interval_cases j <;>
        · simp only [sizeRanges, List.getD_cons_succ, List.getD_cons_zero, matchesRange]
          simp
          omega
  · refine ⟨5, by omega, ?_, ?_, ?_⟩
    · rw [classify_eq, if_neg (by omega), if_neg c1, if_neg c2, if_neg c3, if_neg c4,
        if_neg c5, if_pos h1]
    · simp only [sizeRanges, List.getD_cons_succ, List.getD_cons_zero, matchesRange,
        Bool.and_eq_true, decide_eq_true_eq]
      omega
    · intro j hj
      interval_cases j <;>
        · simp only [sizeRanges, List.getD_cons_succ, List.getD_cons_zero, matchesRange]
          simp
          omega

/-- C3 (amended): when every size lies in `[0, 2^63 - 1)`, each record is
classified into exactly the first of the six ranges whose half-open
interval contains its size, the six bucket counts sum to the number of
observations, and every record with size at least `10485760` lands in the
last range.  The amendment excludes the single size `2^63 - 1` (the
maximum `int64`): the Go table bounds the last range by max-`int64`
exclusive rather than positive infinity, so that one value matches no
range (see the counterexample). -/
theorem calculateSizeBreakdown_classify_spec (logs : List LogSize)
    (h : ∀ l ∈ logs, 0 ≤ l.Filesize ∧ l.Filesize < 9223372036854775807) :
    (∀ l ∈ logs, ∃ i, i < 6 ∧ classify l.Filesize = some i ∧
      matchesRange (sizeRanges.getD i { Name := "", Min := 0, Max := 0 }) l.Filesize = true ∧
      ∀ j, j < i →
        matchesRange (sizeRanges.getD j { Name := "", Min := 0, Max := 0 }) l.Filesize
          = false) ∧
    ((calculateSizeBreakdown logs).map (fun b => b.Count)).sum = logs.length ∧
    ∀ l ∈ logs, 10485760 ≤ l.Filesize → classify l.Filesize = some 5 := by
  refine ⟨?_, ?_, ?_⟩
  · intro l hl
    exact classify_first_match l.Filesize (h l hl).1 (h l hl).2
  · rw [sum_counts_eq, List.countP_eq_length]
    intro l hl
    exact classify_isSome (h l hl).1 (h l hl).2
  · intro l hl hge
    rw [classify_eq, if_neg (by omega), if_neg (by omega), if_neg (by omega),
      if_neg (by omega), if_neg (by omega), if_neg (by omega), if_pos (h l hl).2]

/-- C3 counterexample: the size `9223372036854775807` (the maximum `int64`)
is non-negative and at least `10485760`, yet it satisfies no range of the
table — the last range is bounded above by max-`int64` exclusive — so the
six counts sum to `0`, not to the observation count `1`. -/
theorem calculateSizeBreakdown_maxInt_cex :
    ((calculateSizeBreakdown
        [{ ID := 1, Timestamp := { abs := 0, offset := 0 },
           Filesize := 9223372036854775807 }]).map (fun b => b.Count)).sum ≠
      ([{ ID := 1, Timestamp := { abs := 0, offset := 0 },
          Filesize := 9223372036854775807 }] : List LogSize).length := by
  decide

/-- Witness for C3 (amended) at one observation per size range. -/
theorem calculateSizeBreakdown_classify_spec_witness :
    (∀ l ∈ demoBreakdown, 0 ≤ l.Filesize ∧ l.Filesize < 9223372036854775807) ∧
    ((∀ l ∈ demoBreakdown, ∃ i, i < 6 ∧ classify l.Filesize = some i ∧
      matchesRange (sizeRanges.getD i { Name := "", Min := 0, Max := 0 }) l.Filesize = true ∧
      ∀ j, j < i →
        matchesRange (sizeRanges.getD j { Name := "", Min := 0, Max := 0 }) l.Filesize
          = false) ∧
    ((calculateSizeBreakdown demoBreakdown).map (fun b => b.Count)).sum =
      demoBreakdown.length ∧
    ∀ l ∈ demoBreakdown, 10485760 ≤ l.Filesize → classify l.Filesize = some 5) :=
  ⟨by decide, calculateSizeBreakdown_classify_spec demoBreakdown (by decide)⟩

theorem breakdown_percentages_list (logs : List LogSize) :
    (calculateSizeBreakdown logs).map (fun b => b.Percentage) =
      [if 0 < logs.length then
        ((logs.countP (fun l => decide (classify l.Filesize = some 0)) : ℕ) : ℚ)
          / (logs.length : ℚ) * 100 else 0,
       if 0 < logs.length then
        ((logs.countP (fun l => decide (classify l.Filesize = some 1)) : ℕ) : ℚ)
          / (logs.length : ℚ) * 100 else 0,
       if 0 < logs.length then
        ((logs.countP (fun l => decide (classify l.Filesize = some 2)) : ℕ) : ℚ)
          / (logs.length : ℚ) * 100 else 0,
       if 0 < logs.length then
        ((logs.countP (fun l => decide (classify l.Filesize = some 3)) : ℕ) : ℚ)
          / (logs.length : ℚ) * 100 else 0,
       if 0 < logs.length then
        ((logs.countP (fun l => decide (classify l.Filesize = some 4)) : ℕ) : ℚ)
          / (logs.length : ℚ) * 100 else 0,
       if 0 < logs.length then
        ((logs.countP (fun l => decide (classify l.Filesize = some 5)) : ℕ) : ℚ)
          / (logs.length : ℚ) * 100 else 0] := rfl

theorem breakdown_percentages_eq (logs : List LogSize) (h : 0 < logs.length) :
    ((calculateSizeBreakdown logs).map (fun b => b.Percentage)).sum =
      ((((calculateSizeBreakdown logs).map (fun b => b.Count)).sum : ℕ) : ℚ) /
        (logs.length : ℚ) * 100 := by
  have hne : ((logs.length : ℚ)) ≠ 0 := by
    exact_mod_cast Nat.pos_iff_ne_zero.mp h
  rw [breakdown_percentages_list, breakdown_counts]
  simp only [if_pos h, List.sum_cons, List.sum_nil]
  push_cast
  field_simp
  ring

/-- C10: when some observation carries a negative size (the store performs
no validation, so such rows can reach the analytics), that observation
matches no range of the table, so the six bucket counts sum to strictly
fewer than the number of observations and the percentages sum to strictly
less than `100`. -/
theorem calculateSizeBreakdown_negative_spec (logs : List LogSize)
    (h : ∃ l ∈ logs, l.Filesize < 0) :
    ((calculateSizeBreakdown logs).map (fun b => b.Count)).sum < logs.length ∧
    ((calculateSizeBreakdown logs).map (fun b => b.Percentage)).sum < 100 := by
  obtain ⟨l, hl, hneg⟩ := h
  have hpos : 0 < logs.length := List.length_pos.mpr (List.ne_nil_of_mem hl)
  have hlt : ((calculateSizeBreakdown logs).map (fun b => b.Count)).sum < logs.length := by
    rw [sum_counts_eq]
    have hlen :=
      List.length_eq_countP_add_countP (fun l => (classify l.Filesize).isSome) logs
    have hneg1 :
        0 < logs.countP (fun a => decide ¬((classify a.Filesize).isSome = true)) := by
      rw [List.countP_pos_iff]
      exact ⟨l, hl, by simp [classify_neg hneg]⟩
    omega
  refine ⟨hlt, ?_⟩
  rw [breakdown_percentages_eq logs hpos]
  have ht : (0 : ℚ) < (logs.length : ℚ) := by exact_mod_cast hpos
  have hS : ((((calculateSizeBreakdown logs).map (fun b => b.Count)).sum : ℕ) : ℚ) <
      (logs.length : ℚ) := by
    exact_mod_cast hlt
  have hdiv : ((((calculateSizeBreakdown logs).map (fun b => b.Count)).sum : ℕ) : ℚ) /
      (logs.length : ℚ) < 1 := (div_lt_one ht).mpr hS
  linarith

/-- Witness for C10 at a single observation of size `-5`. -/
theorem calculateSizeBreakdown_negative_spec_witness :
    (∃ l ∈ demoNeg, l.Filesize < 0) ∧
    (((calculateSizeBreakdown demoNeg).map (fun b => b.Count)).sum < demoNeg.length ∧
      ((calculateSizeBreakdown demoNeg).map (fun b => b.Percentage)).sum < 100) :=
  ⟨by decide, calculateSizeBreakdown_negative_spec demoNeg (by decide)⟩

theorem lookupHour_updateHourMap_self (m : List (Time × Nat × Int)) (k : Time) (sz : Int) :
    lookupHour (updateHourMap m k sz) k =
      match lookupHour m k with
      | some cs => some (cs.1 + 1, wrap64 (cs.2 + sz))
      | none => some (1, wrap64 (0 + sz)) := by
  induction m with
  | nil => simp [updateHourMap, lookupHour]
  | cons e rest ih =>
    by_cases h : e.1 = k
    · simp [updateHourMap, lookupHour, h]
    · simp [updateHourMap, lookupHour, h, ih]

theorem lookupHour_updateHourMap_other (m : List (Time × Nat × Int)) (k q : Time)
    (sz : Int) (hne : q ≠ k) :
    lookupHour (updateHourMap m k sz) q = lookupHour m q := by
  induction m with
  | nil => simp [updateHourMap, lookupHour, Ne.symm hne]
  | cons e rest ih =>
    by_cases h : e.1 = k
    · simp [updateHourMap, lookupHour, h, Ne.symm hne]
    · simp [updateHourMap, lookupHour, h, ih]

theorem mem_keys_updateHourMap (m : List (Time × Nat × Int)) (k x : Time) (sz : Int) :
    x ∈ (updateHourMap m k sz).map (fun e => e.1) ↔
      x ∈ m.map (fun e => e.1) ∨ x = k := by
  induction m with
  | nil => simp [updateHourMap]
  | cons e rest ih =>
    by_cases h : e.1 = k
    · simp only [updateHourMap, h, eq_self_iff_true, if_true, List.map_cons,
        List.mem_cons]
      tauto
    · simp only [updateHourMap, if_neg h, List.map_cons, List.mem_cons, ih]
      tauto

theorem keys_nodup_updateHourMap (m : List (Time × Nat × Int)) (k : Time) (sz : Int)
    (h : (m.map (fun e => e.1)).Nodup) :
    ((updateHourMap m k sz).map (fun e => e.1)).Nodup := by
  induction m with
  | nil => simp [updateHourMap]
  | cons e rest ih =>
    simp only [List.map_cons, List.nodup_cons] at h
    by_cases he : e.1 = k
    · simp only [updateHourMap, if_pos he, List.map_cons, List.nodup_cons]
      exact ⟨h.1, h.2⟩
    · simp only [updateHourMap, if_neg he, List.map_cons, List.nodup_cons]
      refine ⟨?_, ih h.2⟩
      intro hmem
      rcases (mem_keys_updateHourMap rest k e.1 sz).mp hmem with hin | heq
      · exact h.1 hin
      · exact he heq

theorem foldl_hourMap_keys_nodup (logs : List LogSize) (m : List (Time × Nat × Int))
    (h : (m.map (fun e => e.1)).Nodup) :
    ((logs.foldl (fun m l => updateHourMap m (hourKey l) l.Filesize) m).map
      (fun e => e.1)).Nodup := by
  induction logs generalizing m with
  | nil => exact h
  | cons x rest ih => exact ih _ (keys_nodup_updateHourMap m (hourKey x) x.Filesize h)

theorem foldl_hourMap_lookup (logs : List LogSize) (m : List (Time × Nat × Int))
    (k : Time) :
    lookupHour (logs.foldl (fun m l => updateHourMap m (hourKey l) l.Filesize) m) k =
      match lookupHour m k with
      | some cs =>
          some (cs.1 + logs.countP (fun l => decide (hourKey l = k)),
            ((logs.filter (fun l => decide (hourKey l = k))).map
              (fun l => l.Filesize)).foldl (fun t x => wrap64 (t + x)) cs.2)
      | none =>
          if logs.countP (fun l => decide (hourKey l = k)) = 0 then none
          else some (logs.countP (fun l => decide (hourKey l = k)),
            ((logs.filter (fun l => decide (hourKey l = k))).map
              (fun l => l.Filesize)).foldl (fun t x => wrap64 (t + x)) 0) := by
  induction logs generalizing m with
  | nil =>
    simp only [List.foldl_nil, List.countP_nil, List.filter_nil, List.map_nil]
    cases lookupHour m k <;> simp
  | cons x rest ih =>
    simp only [List.foldl_cons]
    rw [ih]
    by_cases hx : hourKey x = k
    · rw [hx, lookupHour_updateHourMap_self]
      cases h : lookupHour m k with
      | none =>
        dsimp only
        simp only [List.countP_cons, List.filter_cons, hx, decide_eq_true_eq,
          eq_self_iff_true, if_true, List.map_cons, List.foldl_cons]
        rw [if_neg (by omega)]
        refine congrArg some (Prod.ext (by dsimp only; omega) (by dsimp only))
      | some cs =>
        dsimp only
        simp only [List.countP_cons, List.filter_cons, hx, decide_eq_true_eq,
          eq_self_iff_true, if_true, List.map_cons, List.foldl_cons]
        refine congrArg some (Prod.ext (by dsimp only; omega) (by dsimp only))
    · rw [lookupHour_updateHourMap_other m (hourKey x) k x.Filesize
        (fun hk => hx hk.symm)]
      simp only [List.countP_cons, List.filter_cons, hx, decide_eq_true_eq]
      simp [hx]

theorem find?_map_hourMap (m : List (Time × Nat × Int)) (k : Time) :
    ((m.map (fun e =>
        ({ Timestamp := e.1, Count := e.2.1, TotalSize := e.2.2 } : TimeSeriesPoint))).find?
      (fun p => decide (p.Timestamp = k))) =
      (lookupHour m k).map (fun cs =>
        ({ Timestamp := k, Count := cs.1, TotalSize := cs.2 } : TimeSeriesPoint)) := by
  induction m with
  | nil => rfl
  | cons e rest ih =>
    by_cases h : e.1 = k
    · simp [List.find?_cons, lookupHour, h]
    · simp [List.find?_cons, lookupHour, h, ih]

theorem lookupHour_of_mem (m : List (Time × Nat × Int)) (e : Time × Nat × Int)
    (hmem : e ∈ m) (hnd : (m.map (fun e => e.1)).Nodup) :
    lookupHour m e.1 = some e.2 := by
  induction m with
  | nil => cases hmem
  | cons f rest ih =>
    simp only [List.map_cons, List.nodup_cons] at hnd
    rcases List.mem_cons.mp hmem with rfl | hmem
    · simp [lookupHour]
    · have hne : f.1 ≠ e.1 := by
        intro hEq
        exact hnd.1 (hEq ▸ List.mem_map_of_mem _ hmem)
      simp [lookupHour, hne, ih hmem hnd.2]

/-- C4 (amended): `aggregateByHour` keys every observation by its timestamp
truncated down to the start of its containing hour with the offset of the
timestamp preserved; the emitted buckets have pairwise distinct keys, the
bucket at a key exists exactly when some observation has that key, it
carries the count of exactly the observations with that key together with
their total size reduced into `int64` by two's-complement wraparound
(`data.TotalSize += log.Filesize` is an `int64` addition; the carried
total equals the exact sum whenever that sum fits in `int64`), and only
non-empty hours are emitted.  Since the buckets are characterised by
counts and wrapped sums over the input, observations with equal keys merge
into one bucket whatever the input order. -/
theorem aggregateByHour_spec (logs : List LogSize) (k : Time) :
    ((aggregateByHour logs).map (fun p => p.Timestamp)).Nodup ∧
    ((aggregateByHour logs).find? (fun p => decide (p.Timestamp = k)) =
      if 0 < logs.countP (fun l => decide (hourKey l = k)) then
        some { Timestamp := k,
               Count := logs.countP (fun l => decide (hourKey l = k)),
               TotalSize :=
                 wrap64 (((logs.filter (fun l => decide (hourKey l = k))).map
                   (fun l => l.Filesize)).sum) }
      else none) ∧
    ∀ p ∈ aggregateByHour logs,
      p.Count = logs.countP (fun l => decide (hourKey l = p.Timestamp)) ∧
      p.TotalSize = wrap64 (((logs.filter (fun l => decide (hourKey l = p.Timestamp))).map
        (fun l => l.Filesize)).sum) ∧
      (-9223372036854775808 ≤
          ((logs.filter (fun l => decide (hourKey l = p.Timestamp))).map
            (fun l => l.Filesize)).sum →
        ((logs.filter (fun l => decide (hourKey l = p.Timestamp))).map
          (fun l => l.Filesize)).sum < 9223372036854775808 →
        p.TotalSize = ((logs.filter (fun l => decide (hourKey l = p.Timestamp))).map
          (fun l => l.Filesize)).sum) ∧
      0 < logs.countP (fun l => decide (hourKey l = p.Timestamp)) := by
  refine ⟨?_, ?_, ?_⟩
  · have h := foldl_hourMap_keys_nodup logs [] (by simp)
    simpa [aggregateByHour, List.map_map, Function.comp] using h
  · simp only [aggregateByHour]
    rw [find?_map_hourMap, foldl_hourMap_lookup]
    simp only [lookupHour]
    rcases Nat.eq_zero_or_pos (logs.countP (fun l => decide (hourKey l = k))) with h0 | h0
    · simp [h0]
    · rw [if_pos h0, if_neg (by omega), foldl_wrap_add_zero]
      rfl
  · intro p hp
    simp only [aggregateByHour] at hp
    obtain ⟨e, he, rfl⟩ := List.mem_map.mp hp
    have hnd := foldl_hourMap_keys_nodup logs [] (by simp)
    have hlk := lookupHour_of_mem _ e he hnd
    rw [foldl_hourMap_lookup] at hlk
    simp only [lookupHour] at hlk
    by_cases h0 : logs.countP (fun l => decide (hourKey l = e.1)) = 0
    · rw [if_pos h0] at hlk
      cases hlk
    · rw [if_neg h0] at hlk
      have heq := Option.some.inj hlk
      have hts : e.2.2 =
          wrap64 (((logs.filter (fun l => decide (hourKey l = e.1))).map
            (fun l => l.Filesize)).sum) := by
        rw [← heq]
        exact foldl_wrap_add_zero _
      refine ⟨?_, hts, ?_, Nat.pos_of_ne_zero h0⟩
      · show e.2.1 = _
        rw [← heq]
      · intro h1 h2
        show e.2.2 = _
        rw [hts]
        exact wrap64_eq_self h1 h2

/-- Witness for C4 at the hour-merge example of the spec: two observations
in the same clock hour and one in the next hour, queried at the first hour
key. -/
theorem aggregateByHour_spec_witness :
    ((aggregateByHour demoHours).map (fun p => p.Timestamp)).Nodup ∧
    ((aggregateByHour demoHours).find?
        (fun p => decide (p.Timestamp = ({ abs := 0, offset := 0 } : Time))) =
      if 0 < demoHours.countP
          (fun l => decide (hourKey l = ({ abs := 0, offset := 0 } : Time))) then
        some { Timestamp := { abs := 0, offset := 0 },
               Count := demoHours.countP
                 (fun l => decide (hourKey l = ({ abs := 0, offset := 0 } : Time))),
               TotalSize :=
                 wrap64 (((demoHours.filter
                     (fun l => decide (hourKey l = ({ abs := 0, offset := 0 } : Time)))).map
                   (fun l => l.Filesize)).sum) }
      else none) ∧
    ∀ p ∈ aggregateByHour demoHours,
      p.Count = demoHours.countP (fun l => decide (hourKey l = p.Timestamp)) ∧
      p.TotalSize = wrap64 (((demoHours.filter
        (fun l => decide (hourKey l = p.Timestamp))).map
        (fun l => l.Filesize)).sum) ∧
      (-9223372036854775808 ≤
          ((demoHours.filter (fun l => decide (hourKey l = p.Timestamp))).map
            (fun l => l.Filesize)).sum →
        ((demoHours.filter (fun l => decide (hourKey l = p.Timestamp))).map
          (fun l => l.Filesize)).sum < 9223372036854775808 →
        p.TotalSize = ((demoHours.filter (fun l => decide (hourKey l = p.Timestamp))).map
          (fun l => l.Filesize)).sum) ∧
      0 < demoHours.countP (fun l => decide (hourKey l = p.Timestamp)) :=
  aggregateByHour_spec demoHours { abs := 0, offset := 0 }

/-- C4 counterexample: two same-hour observations of size `2^62` produce a
single bucket whose `int64` running total (`data.TotalSize +=
log.Filesize`) wraps to `-2^63`, not the exact hour total `2^63`. -/
theorem aggregateByHour_overflow_cex :
    (aggregateByHour demoOverflow).map (fun p => p.TotalSize) =
      [-9223372036854775808] ∧
    (demoOverflow.map (fun l => l.Filesize)).sum = 9223372036854775808 ∧
    (-9223372036854775808 : Int) ≠ 9223372036854775808 := by
  exact ⟨by decide, by decide, by decide⟩

end LogpushEstimator
